import Mathlib

/-!
Verification development for the metric-query dashboard and deployment
tooling.  Each section shallowly embeds one part of the source tree:

* `MetricChart` — the chart-merge algorithm of
  `ui/src/components/metrics/MetricChart.tsx`;
* `ApiClient` — the request shapes the dashboard's typed HTTP client
  sends to the service;
* `Playground` — the pipeline-building validation of
  `ui/src/components/metrics/TransformationControls.tsx` and the
  test-scenario handler of the playground page (`PlaygroundPage`);
* `Engine` — the time-bucketing semantics of the transformation engine;
* `Perf` — the benchmark page (`generateRandomMetrics`,
  `runSingleBenchmark`, `runBenchmarks`);
* `Deploy` — the two release-automation scripts (`deploy.ps1`,
  `deploy.sh`).

Definitions come first, then the lemmas and the claim theorems.
-/

namespace MetricChart

/-- A metric sample as exchanged with the service: `{value, timestamp}`.
Values and Unix timestamps are JS numbers; the dashboard only ever
handles integral ones, so we embed both as `Int`. -/
structure Metric where
  value : Int
  timestamp : Int
deriving DecidableEq, Repr

/-- One merged chart point, mirroring `ChartDataPoint` of
`MetricChart.tsx` (the derived `formattedTime` display string is a pure
rendering of `timestamp` and is omitted). -/
structure ChartDataPoint where
  timestamp : Int
  originalValue : Option Int
  transformedValue : Option Int
deriving DecidableEq, Repr

/-- Phase 1 of the merge: one point per original metric, with the
transformed value attached when `transformedMetrics.find` locates a
point with the identical timestamp. -/
def mkOrigPoint (transformed : List Metric) (o : Metric) : ChartDataPoint :=
  { timestamp := o.timestamp
    originalValue := some o.value
    transformedValue :=
      (transformed.find? (fun t => t.timestamp == o.timestamp)).map (·.value) }

/-- Phase 2 step: a transformed metric is appended as its own point
unless some already-collected point carries its timestamp
(`chartData.some(d => d.timestamp === transformed.timestamp)`). -/
def stepTransformed (acc : List ChartDataPoint) (t : Metric) : List ChartDataPoint :=
  if acc.any (fun d => d.timestamp == t.timestamp) then acc
  else acc ++ [{ timestamp := t.timestamp, originalValue := none,
                 transformedValue := some t.value }]

/-- The merged chart data before sorting. -/
def chartDataUnsorted (original transformed : List Metric) : List ChartDataPoint :=
  transformed.foldl stepTransformed (original.map (mkOrigPoint transformed))

/-- `chartData.sort((a, b) => a.timestamp - b.timestamp)`: a stable
ascending sort by timestamp. -/
def sortByTimestamp (l : List ChartDataPoint) : List ChartDataPoint :=
  l.insertionSort (fun a b => a.timestamp ≤ b.timestamp)

/-- The full merge performed by the `MetricChart` component. -/
def mergeChartData (original transformed : List Metric) : List ChartDataPoint :=
  sortByTimestamp (chartDataUnsorted original transformed)

/-- Does some collected point carry timestamp `ts`? -/
def hasTs (l : List ChartDataPoint) (ts : Int) : Bool :=
  l.any (fun d => d.timestamp == ts)

/-- Does some metric carry timestamp `ts`? -/
def hasTsM (l : List Metric) (ts : Int) : Bool :=
  l.any (fun m => m.timestamp == ts)

end MetricChart

namespace ApiClient

/-- A fluent pipeline operation as serialized to the service: a tagged
record with the optional parameter fields the dashboard ever sets. -/
structure PipelineOperation where
  operation : String
  type : Option String := none
  value : Option Int := none
  aggregation : Option String := none
  time_grouping : Option String := none
deriving DecidableEq, Repr

/-- Modelled from the spec: the dashboard API client (`ui/src/lib/api`,
whose source is not in the tree) exposes `pipelineTransform(pipeline)`,
which posts `{pipeline: [...]}` — the operation array and nothing else —
to the fluent-pipeline endpoint. -/
structure PipelineRequest where
  pipeline : List PipelineOperation
deriving DecidableEq, Repr

/-- Modelled from the spec: the client's `runTest(scenario)` posts the
scenario name to the `/test` endpoint. -/
structure TestRequest where
  scenario : String
deriving DecidableEq, Repr

end ApiClient

namespace Playground

/-- The operation kinds selectable in the `TransformationControls`
drop-down. -/
inductive OpKind
  | filter
  | greater_than
  | less_than
  | equal_to
  | aggregate
  | sum
  | average
  | group_by
  | group_by_minute
  | group_by_hour
  | group_by_day
deriving DecidableEq, Repr

/-- The `currentOperation` record being edited: every parameter field is
optional (`Partial<PipelineOperation>`). -/
structure CurrentOperation where
  operation : Option OpKind := none
  type : Option String := none
  value : Option Int := none
  time_grouping : Option String := none
  aggregation : Option String := none
deriving DecidableEq, Repr

/-- JS falsiness of an optional string field: `undefined` and the empty
string (the "Select …" placeholder option) are both falsy. -/
def strFalsy : Option String → Bool
  | none => true
  | some s => s == ""

/-- `addOperation` of `TransformationControls.tsx`: returns the new
pipeline and the `alert` message, if one was raised. -/
def addOperation (pipeline : List CurrentOperation) (cur : CurrentOperation) :
    List CurrentOperation × Option String :=
  match cur.operation with
  | none => (pipeline, none)
  | some op =>
    if op = .filter ∧ (strFalsy cur.type ∨ cur.value = none) then
      (pipeline, some "Filter operations require type and value")
    else if op = .aggregate ∧ strFalsy cur.type then
      (pipeline, some "Aggregate operations require type")
    else if op = .group_by ∧ (strFalsy cur.time_grouping ∨ strFalsy cur.aggregation) then
      (pipeline, some "Group by operations require time grouping and aggregation")
    else
      (pipeline ++ [cur], none)

/-- Following the claim's words (not the source), for the refinement
comparison: which fields each operation kind requires — `filter` needs
`type`+`value`, the shorthand filters need `value`, `aggregate` needs
`type`, `group_by` needs `time_grouping`+`aggregation`, everything else
needs nothing. -/
def specRequiredFieldsPresent (cur : CurrentOperation) : Bool :=
  match cur.operation with
  | none => false
  | some .filter => !(strFalsy cur.type) && cur.value.isSome
  | some .greater_than => cur.value.isSome
  | some .less_than => cur.value.isSome
  | some .equal_to => cur.value.isSome
  | some .aggregate => !(strFalsy cur.type)
  | some .group_by => !(strFalsy cur.time_grouping) && !(strFalsy cur.aggregation)
  | some _ => true

/-- The checks `addOperation` actually performs: only the three generic
kinds are validated. -/
def clientChecksPass (cur : CurrentOperation) : Bool :=
  match cur.operation with
  | some .filter => !(strFalsy cur.type || cur.value.isNone)
  | some .aggregate => !(strFalsy cur.type)
  | some .group_by => !(strFalsy cur.time_grouping || strFalsy cur.aggregation)
  | _ => true

/-- The `/test` endpoint's response as consumed by `runTest`: either of
the two result fields may be absent. -/
structure TestResponse where
  sample_results : Option (List MetricChart.Metric) := none
  results : Option (List MetricChart.Metric) := none
deriving DecidableEq, Repr

/-- JS `a || b` on optional arrays: an array — even an empty one — is
truthy, `undefined` is falsy. -/
def jsOrOpt (a b : Option (List MetricChart.Metric)) : Option (List MetricChart.Metric) :=
  match a with
  | some x => some x
  | none => b

/-- The playground view state touched by `runTest`. -/
structure PlaygroundState where
  originalMetrics : List MetricChart.Metric
  transformedMetrics : List MetricChart.Metric
deriving DecidableEq, Repr

/-- The 50-point placeholder dataset synthesized for display continuity:
`value = index * 10`, `timestamp = now − index * 3600`. -/
def placeholderData (now : Int) : List MetricChart.Metric :=
  (List.range 50).map (fun (i : Nat) =>
    { value := (i : Int) * 10, timestamp := now - (i : Int) * 3600 })

/-- `runTest` of the playground page: the state update applied once the
`/test` response arrives, together with the request that was sent
(`MetricAPI.runTest(testType)` — the scenario name only). -/
def runTestUpdate (st : PlaygroundState) (resp : TestResponse) (now : Int)
    (testType : String) : PlaygroundState × ApiClient.TestRequest :=
  let req : ApiClient.TestRequest := { scenario := testType }
  match jsOrOpt resp.sample_results resp.results with
  | none => (st, req)
  | some results =>
    let st₁ := { st with transformedMetrics := results }
    if results.length > 0 ∧ st.originalMetrics.length = 0 then
      ({ st₁ with originalMetrics := placeholderData now }, req)
    else
      (st₁, req)

/-- `handleApplyTransformations` submits exactly the accumulated
pipeline (`MetricAPI.pipelineTransform(pipeline)`); no metric data
accompanies it. -/
def applyTransformationsRequest (pipeline : List ApiClient.PipelineOperation) :
    ApiClient.PipelineRequest :=
  { pipeline := pipeline }

end Playground

namespace Engine

/-- Modelled from the spec: an engine metric record `{value, timestamp}`
with a rational value (the engine aggregates with exact arithmetic means
in this model). -/
structure QMetric where
  value : ℚ
  timestamp : Int
deriving DecidableEq, Repr

/-- Modelled from the spec: the enumerated Time Bucket Unit. -/
inductive TimeBucketUnit
  | minute
  | hour
  | day
deriving DecidableEq, Repr

/-- Modelled from the spec: bucket sizes 60s, 3600s, 86400s. -/
def bucketSize : TimeBucketUnit → Int
  | .minute => 60
  | .hour => 3600
  | .day => 86400

/-- Modelled from the spec:
`bucket_start = floor(timestamp / bucket_size) * bucket_size`. -/
def bucketStart (ts : Int) (u : TimeBucketUnit) : Int :=
  Int.fdiv ts (bucketSize u) * bucketSize u

/-- Modelled from the spec: the Aggregation Kind. -/
inductive AggregationKind
  | sum
  | avg
  | min
  | max
  | count
deriving DecidableEq, Repr

/-- Modelled from the spec: the aggregate of a list of values; the mean
(and min/max) of an empty collection is undefined. -/
def aggregateValue : AggregationKind → List ℚ → Option ℚ
  | .sum, l => some (l.foldr (· + ·) 0)
  | .count, l => some l.length
  | .avg, [] => none
  | .avg, l => some (l.foldr (· + ·) 0 / l.length)
  | .min, [] => none
  | .min, x :: xs => some (xs.foldl Min.min x)
  | .max, [] => none
  | .max, x :: xs => some (xs.foldl Max.max x)

/-- The ascending list of distinct bucket start times occupied by a
collection. -/
def startsList (ms : List QMetric) (u : TimeBucketUnit) : List Int :=
  ((ms.map (fun m => bucketStart m.timestamp u)).dedup).insertionSort (· ≤ ·)

/-- Modelled from the spec: the engine is not in the tree; time-group
partitions records by bucket, aggregates independently within each
bucket, and returns one record `{value: aggregate, timestamp:
bucket_start}` per non-empty bucket in ascending bucket-start order. -/
def timeGroup (ms : List QMetric) (u : TimeBucketUnit) (k : AggregationKind) :
    List QMetric :=
  (startsList ms u).filterMap (fun b =>
    (aggregateValue k
        ((ms.filter (fun m => bucketStart m.timestamp u == b)).map (·.value))).map
      (fun v => { value := v, timestamp := b }))

end Engine

namespace Perf

/-- `BENCHMARK_OPERATIONS` of the performance page: the four canonical
operation sets. -/
def BENCHMARK_OPERATIONS : List (String × List ApiClient.PipelineOperation) :=
  [("filter", [{ operation := "greater_than", value := some 50 }]),
   ("aggregate", [{ operation := "sum" }]),
   ("timeGroup", [{ operation := "group_by_hour", aggregation := some "avg" }]),
   ("complex", [{ operation := "greater_than", value := some 50 },
                { operation := "group_by_hour", aggregation := some "sum" }])]

/-- `DATA_SIZES` of the performance page. -/
def DATA_SIZES : List Nat := [100, 500, 1000, 5000, 10000]

/-- `totalBenchmarks = Object.keys(BENCHMARK_OPERATIONS).length *
DATA_SIZES.length`. -/
def totalBenchmarks : Nat := BENCHMARK_OPERATIONS.length * DATA_SIZES.length

/-- The (operation, size) pairs in the order the nested loops of
`runBenchmarks` visit them. -/
def benchmarkRuns : List (String × List ApiClient.PipelineOperation × Nat) :=
  (BENCHMARK_OPERATIONS.map (fun op => DATA_SIZES.map (fun sz => (op.1, op.2, sz)))).flatten

/-- `generateRandomMetrics(count)`: each iteration draws one random for
the value (`Math.floor(Math.random() * 1000)`) and one for the timestamp
(`now - Math.floor(Math.random() * 86400 * 30)`); `rnd` supplies the
stream of `Math.random()` results in call order. -/
def generateRandomMetrics (count : Nat) (now : Int) (rnd : Nat → ℚ) :
    List MetricChart.Metric :=
  (List.range count).map (fun i =>
    { value := ⌊rnd (2 * i) * 1000⌋
      timestamp := now - ⌊rnd (2 * i + 1) * (86400 * 30)⌋ })

/-- What one `runSingleBenchmark` call produces: the dataset it
generated and the request it actually issued. -/
structure SingleBenchmark where
  generatedMetrics : List MetricChart.Metric
  request : ApiClient.PipelineRequest
deriving DecidableEq, Repr

/-- `runSingleBenchmark`: generates the test data, then calls
`MetricAPI.pipelineTransform(operationsArray)` — the request carries the
operations only; the generated metrics do not appear in it. -/
def runSingleBenchmark (_operationName : String)
    (operations : List ApiClient.PipelineOperation) (dataSize : Nat)
    (now : Int) (rnd : Nat → ℚ) : SingleBenchmark :=
  { generatedMetrics := generateRandomMetrics dataSize now rnd
    request := { pipeline := operations } }

/-- One row of the results table. -/
structure BenchmarkResult where
  operation : String
  dataSize : Nat
  executionTime : Nat
deriving DecidableEq, Repr

/-- A network event of the benchmark run: the request being issued, or
its response (fulfilment or rejection) arriving. -/
inductive BenchEvent
  | request (op : String) (size : Nat)
  | response (op : String) (size : Nat)
deriving DecidableEq, Repr

def isReqEvent : BenchEvent → Bool
  | .request _ _ => true
  | .response _ _ => false

def isRespEvent : BenchEvent → Bool
  | .request _ _ => false
  | .response _ _ => true

/-- `err.message || 'Unknown error'`. -/
def jsErrMsg (m : String) : String :=
  if m == "" then "Unknown error" else m

/-- The loop-carried state of `runBenchmarks`. -/
structure LoopState where
  results : List BenchmarkResult
  progressTrace : List Nat
  events : List BenchEvent
  error : Option String
deriving DecidableEq, Repr

/-- The benchmark loop: each iteration awaits one request before the
next is issued; on success it records the result and publishes
`Math.floor((completed / total) * 100)` (which, for every reachable
`completed/total`, equals the exact `100 * completed / total`); on the
first rejection the loop is abandoned and the error recorded. `outcome`
gives each run's fate: elapsed time or an error message. -/
def benchLoop (outcome : Nat → Except String Nat) :
    List (String × List ApiClient.PipelineOperation × Nat) → Nat → LoopState → LoopState
  | [], _, s => s
  | (opName, _ops, sz) :: rest, i, s =>
    match outcome i with
    | .ok t =>
      let results := s.results ++ [{ operation := opName, dataSize := sz, executionTime := t }]
      benchLoop outcome rest (i + 1)
        { results := results
          progressTrace := s.progressTrace ++ [100 * results.length / totalBenchmarks]
          events := s.events ++ [.request opName sz, .response opName sz]
          error := s.error }
    | .error m =>
      { s with events := s.events ++ [.request opName sz, .response opName sz]
               error := some ("Benchmark failed: " ++ jsErrMsg m) }

/-- The state of the performance page after `runBenchmarks` finishes. -/
structure BenchFinal where
  benchmarkResults : List BenchmarkResult
  error : Option String
  isRunning : Bool
  progress : Nat
  progressTrace : List Nat
  events : List BenchEvent
deriving DecidableEq, Repr

/-- `runBenchmarks`: results are published only after all runs complete;
the `finally` block clears the running flag and sets progress to 100 on
both paths. -/
def runBenchmarks (outcome : Nat → Except String Nat) : BenchFinal :=
  let s := benchLoop outcome benchmarkRuns 0 ⟨[], [], [], none⟩
  { benchmarkResults := match s.error with | none => s.results | some _ => []
    error := s.error
    isRunning := false
    progress := 100
    progressTrace := s.progressTrace ++ [100]
    events := s.events }

end Perf

namespace Deploy

/-- The externally visible build/push/deploy commands a release script
runs, in order. -/
inductive DAction
  | buildApi
  | pushApi
  | buildUi
  | pushUi
  | helmInstall (release : String)
  | helmUpgrade (release : String)
  | helmStatus (release : String)
deriving DecidableEq, Repr

/-- The outcome each external command would have in this run. -/
structure DeployEnv where
  buildApiOk : Bool
  pushApiOk : Bool
  buildUiOk : Bool
  pushUiOk : Bool
  releaseExists : Bool
  helmOk : Bool
deriving DecidableEq, Repr

/-- A finished script run: the resolved configuration, the commands it
issued before finishing or aborting, and the exit code. -/
structure DeployRun where
  registry : String
  tag : String
  skipPush : Bool
  actions : List DAction
  exitCode : Nat
deriving DecidableEq, Repr

/-- Positional-argument resolution: `$args[0]` (PowerShell) is falsy
when absent or empty, `${1:-default}` (POSIX) substitutes when unset or
null — both fall back to the default in the same cases. -/
def argOrDefault (args : List String) (i : Nat) (dflt : String) : String :=
  match args.get? i with
  | some s => if s = "" then dflt else s
  | none => dflt

/-- `deploy.ps1`: `Build-ApiImage` runs docker build (then docker push
unless `skipPush`) inside `try/catch/finally`, where the `catch` turns a
failed command into `exit 1` — but the `finally { Pop-Location }` has no
matching `Push-Location` anywhere in the script, so once the `try` block
succeeds, `Pop-Location` on the empty location stack raises an error
that `$ErrorActionPreference = "Stop"` makes terminating; an error
raised in `finally` is out of reach of that statement's own `catch`, so
it propagates to the main `try/catch`, which prints "Deployment failed"
and exits 1.  Every run therefore ends after the API-image stage:
`Build-UiImage` and `Deploy-HelmChart` are never reached. -/
def deployPs1 (args : List String) (env : DeployEnv) : DeployRun :=
  let registry := argOrDefault args 0 "registry.quantum-forge.net"
  let tag := argOrDefault args 1 "latest"
  let skipPush := args.get? 2 == some "true"
  let fail (acts : List DAction) : DeployRun :=
    { registry := registry, tag := tag, skipPush := skipPush, actions := acts, exitCode := 1 }
  if !env.buildApiOk then fail [.buildApi]
  else if !skipPush && !env.pushApiOk then fail [.buildApi, .pushApi]
  else fail (if skipPush then [.buildApi] else [.buildApi, .pushApi])

/-- `deploy.sh`: takes only `registry` and `tag` (its usage header lists
exactly those two; `$3` is never read) and always pushes after building.
The tail of the script (the UI build's remainder and the Helm step) is
cut off in the tree; that part is modelled from the spec: install the
release if absent, upgrade in place if present, print its status, and
`set -e` aborts with a non-zero status on the first failing command. -/
def deploySh (args : List String) (env : DeployEnv) : DeployRun :=
  let registry := argOrDefault args 0 "registry.quantum-forge.net"
  let tag := argOrDefault args 1 "latest"
  let fail (acts : List DAction) : DeployRun :=
    { registry := registry, tag := tag, skipPush := false, actions := acts, exitCode := 1 }
  if !env.buildApiOk then fail [.buildApi]
  else if !env.pushApiOk then fail [.buildApi, .pushApi]
  else if !env.buildUiOk then fail [.buildApi, .pushApi, .buildUi]
  else if !env.pushUiOk then fail [.buildApi, .pushApi, .buildUi, .pushUi]
  else
    let helmAct : DAction :=
      if env.releaseExists then .helmUpgrade "metrics-release"
      else .helmInstall "metrics-release"
    if !env.helmOk then fail [.buildApi, .pushApi, .buildUi, .pushUi, helmAct]
    else
      { registry := registry, tag := tag, skipPush := false,
        actions := [.buildApi, .pushApi, .buildUi, .pushUi, helmAct,
                    .helmStatus "metrics-release"],
        exitCode := 0 }

/-- The full build/push/deploy sequence the scripts are written to
perform; `deploy.sh` runs it to completion on success, while
`deploy.ps1` never gets past its second element. -/
def fullActions (releaseExists : Bool) : List DAction :=
  [.buildApi, .pushApi, .buildUi, .pushUi,
   (if releaseExists then .helmUpgrade "metrics-release" else .helmInstall "metrics-release"),
   .helmStatus "metrics-release"]

end Deploy

namespace MetricChart

example :
    mergeChartData [⟨1, 0⟩, ⟨2, 1⟩] [⟨7, 1⟩, ⟨8, 2⟩] =
      [⟨0, some 1, none⟩, ⟨1, some 2, some 7⟩, ⟨2, none, some 8⟩] := by decide

example :
    mergeChartData [⟨1, 5⟩, ⟨2, 5⟩] [] =
      [⟨5, some 1, none⟩, ⟨5, some 2, none⟩] := by decide

lemma hasTs_append (l₁ l₂ : List ChartDataPoint) (ts : Int) :
    hasTs (l₁ ++ l₂) ts = (hasTs l₁ ts || hasTs l₂ ts) := by
  simp [hasTs, List.any_append]

lemma hasTs_stepTransformed (acc : List ChartDataPoint) (m : Metric) (ts : Int) :
    hasTs (stepTransformed acc m) ts = (hasTs acc ts || (m.timestamp == ts)) := by
  unfold stepTransformed
  by_cases h : (acc.any fun d => d.timestamp == m.timestamp) = true
  · rw [if_pos h]
    by_cases he : m.timestamp = ts
    · subst he
      simp [hasTs, h]
    · have hm : (m.timestamp == ts) = false := by simpa using he
      simp [hm]
  · rw [if_neg h, hasTs_append]
    simp [hasTs]

lemma hasTs_foldl (t : List Metric) :
    ∀ base : List ChartDataPoint, ∀ ts : Int,
      hasTs (t.foldl stepTransformed base) ts = (hasTs base ts || hasTsM t ts) := by
  induction t with
  | nil => intro base ts; simp [hasTsM]
  | cons m ms ih =>
    intro base ts
    simp only [List.foldl_cons]
    rw [ih, hasTs_stepTransformed]
    simp only [hasTsM, List.any_cons]
    rw [Bool.or_assoc]

lemma countP_stepTransformed (acc : List ChartDataPoint) (m : Metric) (ts : Int) :
    (stepTransformed acc m).countP (fun d => d.timestamp == ts) =
      (acc.countP (fun d => d.timestamp == ts) +
        if hasTs acc m.timestamp || !(m.timestamp == ts) then 0 else 1) := by
  unfold stepTransformed
  by_cases h : (acc.any fun d => d.timestamp == m.timestamp) = true
  · have ht : hasTs acc m.timestamp = true := h
    rw [if_pos h, ht, Bool.true_or]
    simp
  · have hf : hasTs acc m.timestamp = false := by
      simpa [hasTs] using h
    rw [if_neg h, hf, Bool.false_or, List.countP_append]
    by_cases he : m.timestamp = ts
    · subst he; simp
    · have hm : (m.timestamp == ts) = false := by simpa using he
      simp [hm]

lemma countP_foldl (t : List Metric) :
    ∀ base : List ChartDataPoint, ∀ ts : Int,
      (t.foldl stepTransformed base).countP (fun d => d.timestamp == ts) =
        (base.countP (fun d => d.timestamp == ts) +
          if hasTs base ts || !(hasTsM t ts) then 0 else 1) := by
  induction t with
  | nil => intro base ts; simp [hasTsM]
  | cons m ms ih =>
    intro base ts
    simp only [List.foldl_cons]
    rw [ih, countP_stepTransformed, hasTs_stepTransformed]
    by_cases he : m.timestamp = ts
    · subst he
      simp only [hasTsM, List.any_cons, beq_self_eq_true, Bool.true_or, Bool.not_true,
        Bool.or_true, Bool.or_false, if_true]
      cases hb : hasTs base m.timestamp <;> simp [hb]
    · have hm : (m.timestamp == ts) = false := by simpa using he
      simp only [hasTsM, List.any_cons, hm, Bool.not_false, Bool.or_true,
        Bool.or_false, Bool.false_or, if_true]
      simp

lemma mem_base_foldl (t : List Metric) :
    ∀ base : List ChartDataPoint, ∀ p ∈ base, p ∈ t.foldl stepTransformed base := by
  induction t with
  | nil => intro base p hp; simpa using hp
  | cons m ms ih =>
    intro base p hp
    simp only [List.foldl_cons]
    apply ih
    unfold stepTransformed
    split
    · exact hp
    · exact List.mem_append_left _ hp

lemma mem_foldl_cases (t : List Metric) :
    ∀ base : List ChartDataPoint, ∀ p ∈ t.foldl stepTransformed base,
      p ∈ base ∨ (p.originalValue = none ∧
        ∃ m ∈ t, p.timestamp = m.timestamp ∧ p.transformedValue = some m.value) := by
  induction t with
  | nil => intro base p hp; left; simpa using hp
  | cons m ms ih =>
    intro base p hp
    simp only [List.foldl_cons] at hp
    rcases ih _ p hp with hbase | ⟨ho, m', hm', hts, hv⟩
    · unfold stepTransformed at hbase
      split at hbase
      · exact Or.inl hbase
      · rcases List.mem_append.mp hbase with h | h
        · exact Or.inl h
        · right
          simp only [List.mem_singleton] at h
          subst h
          exact ⟨rfl, m, List.mem_cons_self _ _, rfl, rfl⟩
    · exact Or.inr ⟨ho, m', List.mem_cons_of_mem _ hm', hts, hv⟩

instance : IsTotal ChartDataPoint (fun a b => a.timestamp ≤ b.timestamp) :=
  ⟨fun a b => le_total a.timestamp b.timestamp⟩

instance : IsTrans ChartDataPoint (fun a b => a.timestamp ≤ b.timestamp) :=
  ⟨fun _ _ _ h₁ h₂ => le_trans h₁ h₂⟩

lemma perm_mergeChartData (o t : List Metric) :
    List.Perm (mergeChartData o t) (chartDataUnsorted o t) :=
  List.perm_insertionSort _ _

lemma hasTsM_iff (l : List Metric) (ts : Int) :
    hasTsM l ts = true ↔ ts ∈ l.map (·.timestamp) := by
  simp [hasTsM, List.any_eq_true, List.mem_map]

lemma mkOrigPoint_timestamp (t : List Metric) (o : Metric) :
    (mkOrigPoint t o).timestamp = o.timestamp := rfl

lemma hasTs_base (o t : List Metric) (ts : Int) :
    hasTs (o.map (mkOrigPoint t)) ts = hasTsM o ts := by
  rw [Bool.eq_iff_iff]
  simp [hasTs, hasTsM, List.any_eq_true, List.mem_map, mkOrigPoint_timestamp]

lemma countP_base (o t : List Metric) (ts : Int) :
    (o.map (mkOrigPoint t)).countP (fun d => d.timestamp == ts) =
      o.countP (fun m => m.timestamp == ts) := by
  rw [List.countP_map]
  rfl

lemma countP_ts_of_nodup (o : List Metric)
    (h : (o.map (·.timestamp)).Nodup) (ts : Int) :
    o.countP (fun m => m.timestamp == ts) =
      if ts ∈ o.map (·.timestamp) then 1 else 0 := by
  have hc : o.countP (fun m => m.timestamp == ts) = (o.map (·.timestamp)).count ts := by
    rw [List.count, List.countP_map]
    rfl
  rw [hc]
  by_cases hm : ts ∈ o.map (·.timestamp)
  · rw [if_pos hm]
    exact List.count_eq_one_of_mem h hm
  · rw [if_neg hm]
    exact List.count_eq_zero_of_not_mem hm

lemma countP_mergeChartData (o t : List Metric)
    (h : (o.map (·.timestamp)).Nodup) (ts : Int) :
    (mergeChartData o t).countP (fun p => p.timestamp == ts) =
      if ts ∈ o.map (·.timestamp) ∨ ts ∈ t.map (·.timestamp) then 1 else 0 := by
  rw [(perm_mergeChartData o t).countP_eq]
  unfold chartDataUnsorted
  rw [countP_foldl, countP_base, countP_ts_of_nodup o h, hasTs_base]
  by_cases ho : ts ∈ o.map (·.timestamp)
  · have hb : hasTsM o ts = true := (hasTsM_iff o ts).mpr ho
    simp [ho, hb]
  · have hb : hasTsM o ts = false := by
      rw [Bool.eq_false_iff]
      intro hx
      exact ho ((hasTsM_iff o ts).mp hx)
    by_cases ht : ts ∈ t.map (·.timestamp)
    · have hbt : hasTsM t ts = true := (hasTsM_iff t ts).mpr ht
      simp [ho, ht, hb, hbt]
    · have hbt : hasTsM t ts = false := by
        rw [Bool.eq_false_iff]
        intro hx
        exact ht ((hasTsM_iff t ts).mp hx)
      simp [ho, ht, hb, hbt]

end MetricChart

namespace MetricChart

/-- C1 (counterexample): the claim's per-timestamp uniqueness fails for
an arbitrary original series — two original metrics sharing timestamp 5
produce two chart points at 5, not one. -/
theorem chartMerge_one_point_per_timestamp_refuted :
    ¬ (∀ o t : List Metric, ∀ ts : Int,
        (mergeChartData o t).countP (fun p => p.timestamp == ts) =
          if ts ∈ o.map (·.timestamp) ∨ ts ∈ t.map (·.timestamp) then 1 else 0) := by
  intro h
  exact absurd (h [⟨1, 5⟩, ⟨2, 5⟩] [] 5) (by decide)

/-- C1 (amended): for an original series with pairwise-distinct
timestamps, the merge yields exactly one point per timestamp occurring
in either series; every original metric's point carries its value plus
the first matching transformed value when one exists; a timestamp only
in the transformed series yields a point with no original value; the
result is sorted ascending by timestamp; and the `{T, T+1}` versus
`{T+1, T+2}` instance gives exactly the three expected points. -/
theorem chartMerge_point_spec (o t : List Metric)
    (h : (o.map (·.timestamp)).Nodup) :
    (∀ ts : Int, (mergeChartData o t).countP (fun p => p.timestamp == ts) =
        if ts ∈ o.map (·.timestamp) ∨ ts ∈ t.map (·.timestamp) then 1 else 0)
    ∧ (∀ m ∈ o, mkOrigPoint t m ∈ mergeChartData o t)
    ∧ (∀ m ∈ t, m.timestamp ∉ o.map (·.timestamp) →
        ∃ p ∈ mergeChartData o t, p.timestamp = m.timestamp ∧
          p.originalValue = none ∧ p.transformedValue.isSome)
    ∧ (mergeChartData o t).Pairwise (fun a b => a.timestamp ≤ b.timestamp)
    ∧ (∀ T v₁ v₂ w₁ w₂ : Int,
        mergeChartData [⟨v₁, T⟩, ⟨v₂, T + 1⟩] [⟨w₁, T + 1⟩, ⟨w₂, T + 2⟩] =
          [⟨T, some v₁, none⟩, ⟨T + 1, some v₂, some w₁⟩, ⟨T + 2, none, some w₂⟩]) := by
  refine ⟨countP_mergeChartData o t h, ?_, ?_, ?_, ?_⟩
  · intro m hm
    exact (perm_mergeChartData o t).mem_iff.mpr
      (mem_base_foldl t _ _ (List.mem_map_of_mem _ hm))
  · intro m hm hno
    have htm : hasTsM t m.timestamp = true := by
      simp only [hasTsM, List.any_eq_true]
      exact ⟨m, hm, by simp⟩
    have h1 : hasTs (chartDataUnsorted o t) m.timestamp = true := by
      unfold chartDataUnsorted
      rw [hasTs_foldl]
      simp [htm]
    obtain ⟨p, hp, hpts⟩ :
        ∃ p ∈ chartDataUnsorted o t, (p.timestamp == m.timestamp) = true := by
      simpa [hasTs, List.any_eq_true] using h1
    have hpeq : p.timestamp = m.timestamp := by simpa using hpts
    rcases mem_foldl_cases t _ p hp with hbase | ⟨ho, m', _, _, hv⟩
    · exfalso
      obtain ⟨o', ho', rfl⟩ := List.mem_map.mp hbase
      exact hno (hpeq ▸ List.mem_map_of_mem (·.timestamp) ho')
    · exact ⟨p, (perm_mergeChartData o t).mem_iff.mpr hp, hpeq, ho, by rw [hv]; rfl⟩
  · exact List.sorted_insertionSort (fun a b => a.timestamp ≤ b.timestamp)
      (chartDataUnsorted o t)
  · intro T v₁ v₂ w₁ w₂
    have e1 : ((T + 1 : Int) == T) = false := by
      simp only [beq_eq_false_iff_ne, ne_eq]; omega
    have e2 : ((T + 2 : Int) == T) = false := by
      simp only [beq_eq_false_iff_ne, ne_eq]; omega
    have e3 : ((T + 1 : Int) == T + 1) = true := by simp
    have e4 : ((T + 2 : Int) == T + 1) = false := by
      simp only [beq_eq_false_iff_ne, ne_eq]; omega
    have e5 : ((T : Int) == T + 1) = false := by
      simp only [beq_eq_false_iff_ne, ne_eq]; omega
    have e6 : ((T : Int) == T + 2) = false := by
      simp only [beq_eq_false_iff_ne, ne_eq]; omega
    have e7 : ((T + 1 : Int) == T + 2) = false := by
      simp only [beq_eq_false_iff_ne, ne_eq]; omega
    have e8 : ((T + 2 : Int) == T + 2) = true := by simp
    simp [mergeChartData, chartDataUnsorted, mkOrigPoint, stepTransformed,
      sortByTimestamp, List.find?, e1, e2, e3, e4, e5, e6, e7, e8,
      List.orderedInsert, show T ≤ T + 1 by omega, show T + 1 ≤ T + 2 by omega,
      show T ≤ T + 2 by omega]

/-- C1 (witness): the amended theorem applied at a concrete pair of
series with distinct original timestamps. -/
theorem chartMerge_point_spec_witness :
    (([⟨1, 0⟩, ⟨2, 1⟩] : List Metric).map (·.timestamp)).Nodup ∧
    (mergeChartData [⟨1, 0⟩, ⟨2, 1⟩] [⟨7, 1⟩, ⟨8, 2⟩]).Pairwise
      (fun a b => a.timestamp ≤ b.timestamp) :=
  ⟨by decide,
   (chartMerge_point_spec [⟨1, 0⟩, ⟨2, 1⟩] [⟨7, 1⟩, ⟨8, 2⟩] (by decide)).2.2.2.1⟩

/-- C10: with pairwise-distinct original timestamps the merged data has
no duplicate-timestamp points, every point's timestamp comes from one of
the two series, and a shared timestamp's single point carries the value
of the first matching transformed metric (`find` returns the first
match; later transformed points at an already-present timestamp add
nothing). -/
theorem chartMerge_no_duplicate_timestamps (o t : List Metric)
    (h : (o.map (·.timestamp)).Nodup) :
    ((mergeChartData o t).map (·.timestamp)).Nodup
    ∧ (∀ p ∈ mergeChartData o t,
        p.timestamp ∈ o.map (·.timestamp) ∨ p.timestamp ∈ t.map (·.timestamp))
    ∧ (∀ m ∈ o, ∀ w : Metric,
        t.find? (fun x => x.timestamp == m.timestamp) = some w →
          ({ timestamp := m.timestamp, originalValue := some m.value,
             transformedValue := some w.value } : ChartDataPoint) ∈ mergeChartData o t) := by
  refine ⟨?_, ?_, ?_⟩
  · rw [List.nodup_iff_count_le_one]
    intro a
    have hc : ((mergeChartData o t).map (·.timestamp)).count a =
        (mergeChartData o t).countP (fun p => p.timestamp == a) := by
      rw [List.count, List.countP_map]
      rfl
    rw [hc, countP_mergeChartData o t h]
    split <;> omega
  · intro p hp
    rcases mem_foldl_cases t _ p ((perm_mergeChartData o t).mem_iff.mp hp) with
      hbase | ⟨_, m', hm', hts, _⟩
    · obtain ⟨o', ho', rfl⟩ := List.mem_map.mp hbase
      exact Or.inl (List.mem_map_of_mem (·.timestamp) ho')
    · exact Or.inr (hts ▸ List.mem_map_of_mem (·.timestamp) hm')
  · intro m hm w hw
    have : mkOrigPoint t m ∈ mergeChartData o t :=
      (perm_mergeChartData o t).mem_iff.mpr
        (mem_base_foldl t _ _ (List.mem_map_of_mem _ hm))
    simpa [mkOrigPoint, hw] using this

/-- C10 (witness): the theorem applied at concrete series where the
transformed list has two metrics at the shared timestamp — the merged
point keeps the first one's value. -/
theorem chartMerge_no_duplicate_timestamps_witness :
    (([⟨3, 10⟩] : List Metric).map (·.timestamp)).Nodup ∧
    ({ timestamp := 10, originalValue := some 3, transformedValue := some 4 } :
        ChartDataPoint) ∈ mergeChartData [⟨3, 10⟩] [⟨4, 10⟩, ⟨5, 10⟩] :=
  ⟨by decide,
   (chartMerge_no_duplicate_timestamps [⟨3, 10⟩] [⟨4, 10⟩, ⟨5, 10⟩]
      (by decide)).2.2 ⟨3, 10⟩ (by decide) ⟨4, 10⟩ (by decide)⟩

end MetricChart

namespace Playground

lemma addOperation_fst (p : List CurrentOperation) (cur : CurrentOperation) :
    (addOperation p cur).1 =
      if cur.operation.isSome ∧ clientChecksPass cur = true then p ++ [cur] else p := by
  rcases hop : cur.operation with _ | op
  · simp [addOperation, hop]
  · cases op <;>
      simp [addOperation, hop, clientChecksPass, Option.isNone_iff_eq_none] <;>
      split_ifs <;>
      simp_all [Option.isSome_iff_ne_none]

lemma addOperation_snd (p : List CurrentOperation) (cur : CurrentOperation) :
    (addOperation p cur).2.isSome =
      (cur.operation.isSome && !(clientChecksPass cur)) := by
  rcases hop : cur.operation with _ | op
  · simp [addOperation, hop]
  · cases op <;>
      simp [addOperation, hop, clientChecksPass, Option.isNone_iff_eq_none] <;>
      split_ifs <;>
      simp_all [Option.isSome_iff_ne_none]

/-- C5 (counterexample): a `greater_than` operation with no `value` is
appended without any warning, although the claim requires `value` for
the shorthand filters. -/
theorem addOperation_required_fields_refuted :
    ¬ (∀ (p : List CurrentOperation) (cur : CurrentOperation),
        (((addOperation p cur).1 = p ++ [cur]) ↔ specRequiredFieldsPresent cur = true)
        ∧ (specRequiredFieldsPresent cur = false → (addOperation p cur).1 = p)) := by
  intro h
  have := h [] { operation := some .greater_than }
  revert this
  decide

/-- C5 (amended): `addOperation` validates only the three generic kinds
— `filter` (needs `type`+`value`), `aggregate` (needs `type`) and
`group_by` (needs `time_grouping`+`aggregation`); the shorthand
operations, `greater_than`/`less_than`/`equal_to` included, are appended
without any required-field check.  The operation is appended iff one is
selected and those checks pass; a warning is raised iff they fail; and a
warning always leaves the pipeline unchanged. -/
theorem playground_add_operation_validation
    (p : List CurrentOperation) (cur : CurrentOperation) :
    ((addOperation p cur).1 = p ++ [cur] ∨ (addOperation p cur).1 = p)
    ∧ ((addOperation p cur).1 = p ++ [cur] ↔
        cur.operation.isSome ∧ clientChecksPass cur = true)
    ∧ ((addOperation p cur).2.isSome ↔
        cur.operation.isSome ∧ clientChecksPass cur = false)
    ∧ ((addOperation p cur).2.isSome → (addOperation p cur).1 = p) := by
  have hne : p ++ [cur] ≠ p := by
    intro he
    have := congrArg List.length he
    simp at this
  have hfst := addOperation_fst p cur
  have hsnd := addOperation_snd p cur
  by_cases hc : cur.operation.isSome ∧ clientChecksPass cur = true
  · rw [if_pos hc] at hfst
    refine ⟨Or.inl hfst, by simp [hfst, hc], ?_, ?_⟩
    · rw [hsnd]
      simp [hc.1, hc.2]
    · rw [hsnd]
      simp [hc.2]
  · rw [if_neg hc] at hfst
    refine ⟨Or.inr hfst, by simp [hfst, hne, hc], ?_, fun _ => hfst⟩
    rw [hsnd]
    rcases hop : cur.operation.isSome with _ | _
    · simp [hop]
    · have hpass : clientChecksPass cur = false := by
        rcases hb : clientChecksPass cur with _ | _
        · rfl
        · exact absurd ⟨hop, hb⟩ hc
      simp [hop, hpass]

/-- C5 (witness): the amended theorem applied to a `filter` operation
missing both fields — the warning is raised and the pipeline is
unchanged. -/
theorem playground_add_operation_validation_witness :
    (addOperation [] { operation := some OpKind.filter }).2.isSome = true ∧
    (addOperation [] { operation := some OpKind.filter }).1 = [] :=
  ⟨by decide,
   (playground_add_operation_validation [] { operation := some OpKind.filter }).2.2.2
     (by decide)⟩

lemma runTestUpdate_snd (st : PlaygroundState) (resp : TestResponse) (now : Int)
    (testType : String) :
    (runTestUpdate st resp now testType).2 = { scenario := testType } := by
  unfold runTestUpdate
  rcases jsOrOpt resp.sample_results resp.results with _ | rs
  · rfl
  · simp only
    split <;> rfl

/-- C6: when a test scenario returns a non-empty result and no original
dataset is loaded, the view swaps in the 50-point placeholder
(`value = i * 10`, `timestamp = now − i * 3600`); the request actually
sent carried only the scenario name, independent of the view state, and
the pipeline-submission request is a function of the pipeline alone —
the placeholder is display-only and never submitted. -/
theorem playground_placeholder_on_test (st : PlaygroundState) (resp : TestResponse)
    (now : Int) (testType : String) (rs : List MetricChart.Metric)
    (hres : jsOrOpt resp.sample_results resp.results = some rs)
    (hne : rs ≠ [])
    (hempty : st.originalMetrics = []) :
    (runTestUpdate st resp now testType).1.originalMetrics = placeholderData now
    ∧ (placeholderData now).length = 50
    ∧ (∀ i : Nat, i < 50 →
        (placeholderData now)[i]? = some ⟨(i : Int) * 10, now - (i : Int) * 3600⟩)
    ∧ (runTestUpdate st resp now testType).2 = { scenario := testType }
    ∧ (∀ st' : PlaygroundState, (runTestUpdate st' resp now testType).2 =
        (runTestUpdate st resp now testType).2)
    ∧ (∀ pipeline : List ApiClient.PipelineOperation,
        applyTransformationsRequest pipeline = { pipeline := pipeline }) := by
  have hlen : rs.length > 0 := List.length_pos.mpr hne
  refine ⟨?_,
    by simp only [placeholderData, List.length_map, List.length_range],
    ?_, runTestUpdate_snd st resp now testType,
    fun st' => by rw [runTestUpdate_snd, runTestUpdate_snd], fun _ => rfl⟩
  · unfold runTestUpdate
    rw [hres]
    simp only
    rw [if_pos ⟨hlen, by simp [hempty]⟩]
  · intro i hi
    simp only [placeholderData, List.getElem?_map, List.getElem?_range, hi, if_true]
    rfl

/-- C6 (witness): the theorem applied at a concrete scenario response
with one result and an empty store. -/
theorem playground_placeholder_on_test_witness :
    jsOrOpt (some [⟨1, 2⟩]) none = some [(⟨1, 2⟩ : MetricChart.Metric)] ∧
    (runTestUpdate ⟨[], []⟩ ⟨some [⟨1, 2⟩], none⟩ 0 "basic_filtering").1.originalMetrics =
      placeholderData 0 :=
  ⟨rfl,
   (playground_placeholder_on_test ⟨[], []⟩ ⟨some [⟨1, 2⟩], none⟩ 0 "basic_filtering"
      [⟨1, 2⟩] rfl (by decide) rfl).1⟩

end Playground

namespace Engine

lemma aggregateValue_isSome (k : AggregationKind) (l : List ℚ) (h : l ≠ []) :
    (aggregateValue k l).isSome := by
  cases l with
  | nil => exact absurd rfl h
  | cons x xs => cases k <;> rfl

lemma mem_startsList_iff (ms : List QMetric) (u : TimeBucketUnit) (b : Int) :
    b ∈ startsList ms u ↔ ∃ m ∈ ms, bucketStart m.timestamp u = b := by
  unfold startsList
  rw [(List.perm_insertionSort _ _).mem_iff, List.mem_dedup, List.mem_map]

lemma filter_bucket_ne_nil (ms : List QMetric) (u : TimeBucketUnit) (b : Int)
    (hb : b ∈ startsList ms u) :
    (ms.filter (fun m => bucketStart m.timestamp u == b)) ≠ [] := by
  obtain ⟨m, hm, hmb⟩ := (mem_startsList_iff ms u b).mp hb
  exact List.ne_nil_of_mem (List.mem_filter.mpr ⟨hm, by simp [hmb]⟩)

lemma filterMap_buckets_map_timestamp (ms : List QMetric) (u : TimeBucketUnit)
    (k : AggregationKind) :
    ∀ l : List Int,
      (∀ b ∈ l, (ms.filter (fun m => bucketStart m.timestamp u == b)) ≠ []) →
      ((l.filterMap (fun b =>
          (aggregateValue k
              ((ms.filter (fun m => bucketStart m.timestamp u == b)).map (·.value))).map
            (fun v => ({ value := v, timestamp := b } : QMetric)))).map (·.timestamp)) = l := by
  intro l
  induction l with
  | nil => intro _; rfl
  | cons b bs ih =>
    intro hall
    have hne : ((ms.filter (fun m => bucketStart m.timestamp u == b)).map (·.value)) ≠ [] := by
      simp only [ne_eq, List.map_eq_nil_iff]
      exact hall b (List.mem_cons_self _ _)
    obtain ⟨v, hv⟩ := Option.isSome_iff_exists.mp (aggregateValue_isSome k _ hne)
    rw [List.filterMap_cons, hv]
    simp only [Option.map_some']
    rw [List.map_cons]
    rw [ih (fun x hx => hall x (List.mem_cons_of_mem _ hx))]

lemma timeGroup_map_timestamp (ms : List QMetric) (u : TimeBucketUnit)
    (k : AggregationKind) :
    (timeGroup ms u k).map (·.timestamp) = startsList ms u := by
  unfold timeGroup
  exact filterMap_buckets_map_timestamp ms u k (startsList ms u)
    (fun b hb => filter_bucket_ne_nil ms u b hb)

lemma startsList_sorted (ms : List QMetric) (u : TimeBucketUnit) :
    (startsList ms u).Sorted (· ≤ ·) :=
  List.sorted_insertionSort _ _

lemma startsList_nodup (ms : List QMetric) (u : TimeBucketUnit) :
    (startsList ms u).Nodup :=
  ((List.perm_insertionSort _ _).nodup_iff).mpr (List.nodup_dedup _)

lemma timeGroup_value (ms : List QMetric) (u : TimeBucketUnit) (k : AggregationKind) :
    ∀ p ∈ timeGroup ms u k,
      aggregateValue k
          ((ms.filter (fun m => bucketStart m.timestamp u == p.timestamp)).map (·.value)) =
        some p.value := by
  intro p hp
  obtain ⟨b, _, hb⟩ := List.mem_filterMap.mp hp
  obtain ⟨v, hv, hpv⟩ := Option.map_eq_some'.mp hb
  have hts : p.timestamp = b := by rw [← hpv]
  have hval : p.value = v := by rw [← hpv]
  rw [hts, hval, hv]

/-- C3: time-bucketing assigns every record the bucket
`floor(timestamp / size) * size` (the bucket's lower boundary bounds the
timestamp from below, the next boundary from above, and the boundary is
a multiple of the bucket size); the unit sizes are 60/3600/86400
seconds; 3599 falls in the hour bucket starting at 0 and 3600 in the one
starting at 3600; and time-grouping emits exactly one record per
non-empty bucket, stamped with the bucket's lower boundary, in ascending
bucket order, carrying that bucket's aggregate. -/
theorem timeGroup_bucket_boundaries :
    (bucketSize .minute = 60 ∧ bucketSize .hour = 3600 ∧ bucketSize .day = 86400)
    ∧ (∀ (ts : Int) (u : TimeBucketUnit),
        bucketStart ts u ≤ ts ∧ ts < bucketStart ts u + bucketSize u ∧
          bucketSize u ∣ bucketStart ts u)
    ∧ (bucketStart 3599 .hour = 0 ∧ bucketStart 3600 .hour = 3600)
    ∧ (∀ (ms : List QMetric) (u : TimeBucketUnit) (k : AggregationKind),
        ((timeGroup ms u k).map (·.timestamp)).Sorted (· ≤ ·)
        ∧ ((timeGroup ms u k).map (·.timestamp)).Nodup
        ∧ (∀ b : Int, b ∈ (timeGroup ms u k).map (·.timestamp) ↔
            ∃ m ∈ ms, bucketStart m.timestamp u = b)
        ∧ (∀ p ∈ timeGroup ms u k,
            aggregateValue k
                ((ms.filter
                  (fun m => bucketStart m.timestamp u == p.timestamp)).map (·.value)) =
              some p.value))
    ∧ (∀ v : ℚ, timeGroup [⟨v, 3599⟩] .hour .sum = [⟨v, 0⟩]
        ∧ timeGroup [⟨v, 3600⟩] .hour .sum = [⟨v, 3600⟩]) := by
  refine ⟨⟨rfl, rfl, rfl⟩, ?_, ⟨by decide, by decide⟩, ?_, ?_⟩
  · intro ts u
    have hs : (0 : Int) < bucketSize u := by cases u <;> norm_num [bucketSize]
    have heq : bucketStart ts u = ts / bucketSize u * bucketSize u := by
      unfold bucketStart
      rw [Int.fdiv_eq_ediv _ hs.le]
    refine ⟨?_, ?_, ?_⟩
    · rw [heq]
      exact Int.ediv_mul_le ts hs.ne'
    · rw [heq]
      have := Int.lt_ediv_add_one_mul_self ts hs
      linarith [this]
    · rw [heq]
      exact dvd_mul_left _ _
  · intro ms u k
    rw [timeGroup_map_timestamp]
    exact ⟨startsList_sorted ms u, startsList_nodup ms u,
      fun b => mem_startsList_iff ms u b, timeGroup_value ms u k⟩
  · intro v
    constructor
    · have hb : bucketStart 3599 .hour = 0 := by decide
      simp [timeGroup, startsList, hb, aggregateValue, List.dedup, List.insertionSort,
        List.orderedInsert, List.filterMap, List.filter]
    · have hb : bucketStart 3600 .hour = 3600 := by decide
      simp [timeGroup, startsList, hb, aggregateValue, List.dedup, List.insertionSort,
        List.orderedInsert, List.filterMap, List.filter]

end Engine

namespace Perf

/-- C2 (code bug): `runSingleBenchmark` generates a dataset of the exact
requested size with the claimed value/timestamp ranges, but the request
it issues carries the operation array only — it is identical for every
dataset size, so the generated dataset is never submitted through the
fluent-pipeline endpoint. -/
theorem runSingleBenchmark_dataset_not_submitted
    (opName : String) (ops : List ApiClient.PipelineOperation) (size : Nat)
    (now : Int) (rnd : Nat → ℚ) :
    (runSingleBenchmark opName ops size now rnd).request = { pipeline := ops }
    ∧ (∀ size' : Nat, (runSingleBenchmark opName ops size' now rnd).request =
        (runSingleBenchmark opName ops size now rnd).request)
    ∧ (runSingleBenchmark opName ops size now rnd).generatedMetrics.length = size
    ∧ ((∀ n, 0 ≤ rnd n ∧ rnd n < 1) →
        ∀ m ∈ (runSingleBenchmark opName ops size now rnd).generatedMetrics,
          (0 ≤ m.value ∧ m.value < 1000) ∧
            (now - 86400 * 30 < m.timestamp ∧ m.timestamp ≤ now)) := by
  refine ⟨rfl, fun _ => rfl, by simp [runSingleBenchmark, generateRandomMetrics], ?_⟩
  intro hr m hm
  simp only [runSingleBenchmark, generateRandomMetrics, List.mem_map,
    List.mem_range] at hm
  obtain ⟨i, _, rfl⟩ := hm
  dsimp only
  have hv0 : (0 : ℚ) ≤ rnd (2 * i) * 1000 :=
    mul_nonneg (hr (2 * i)).1 (by norm_num)
  have hv1 : rnd (2 * i) * 1000 < 1000 := by
    have := mul_lt_mul_of_pos_right (hr (2 * i)).2 (show (0 : ℚ) < 1000 by norm_num)
    simpa using this
  have ht0 : (0 : ℚ) ≤ rnd (2 * i + 1) * (86400 * 30) :=
    mul_nonneg (hr (2 * i + 1)).1 (by norm_num)
  have ht1 : rnd (2 * i + 1) * (86400 * 30) < 86400 * 30 := by
    have := mul_lt_mul_of_pos_right (hr (2 * i + 1)).2
      (show (0 : ℚ) < 86400 * 30 by norm_num)
    simpa using this
  refine ⟨⟨?_, ?_⟩, ?_, ?_⟩
  · exact Int.le_floor.mpr (by exact_mod_cast hv0)
  · exact Int.floor_lt.mpr (by exact_mod_cast hv1)
  · have : ⌊rnd (2 * i + 1) * (86400 * 30)⌋ < (86400 * 30 : Int) :=
      Int.floor_lt.mpr (by exact_mod_cast ht1)
    omega
  · have : (0 : Int) ≤ ⌊rnd (2 * i + 1) * (86400 * 30)⌋ :=
      Int.le_floor.mpr (by exact_mod_cast ht0)
    omega

/-- C2 (witness): the bug theorem applied at the failing benchmark
input ("filter", size 100) with a concrete random stream. -/
theorem runSingleBenchmark_dataset_not_submitted_witness :
    (runSingleBenchmark "filter" [{ operation := "greater_than", value := some 50 }]
        100 1000000 (fun _ => 1 / 2)).request =
      { pipeline := [{ operation := "greater_than", value := some 50 }] }
    ∧ (runSingleBenchmark "filter" [{ operation := "greater_than", value := some 50 }]
        100 1000000 (fun _ => 1 / 2)).generatedMetrics.length = 100
    ∧ (runSingleBenchmark "filter" [{ operation := "greater_than", value := some 50 }]
        5 1000000 (fun _ => 1 / 2)).request =
      (runSingleBenchmark "filter" [{ operation := "greater_than", value := some 50 }]
        100 1000000 (fun _ => 1 / 2)).request :=
  ⟨(runSingleBenchmark_dataset_not_submitted "filter"
      [{ operation := "greater_than", value := some 50 }] 100 1000000 (fun _ => 1 / 2)).1,
   (runSingleBenchmark_dataset_not_submitted "filter"
      [{ operation := "greater_than", value := some 50 }] 100 1000000 (fun _ => 1 / 2)).2.2.1,
   (runSingleBenchmark_dataset_not_submitted "filter"
      [{ operation := "greater_than", value := some 50 }] 100 1000000 (fun _ => 1 / 2)).2.1 5⟩

lemma benchLoop_ok (outcome : Nat → Except String Nat) :
    ∀ (runs : List (String × List ApiClient.PipelineOperation × Nat)) (i : Nat)
      (s : LoopState),
      (∀ k, k < runs.length → (outcome (i + k)).isOk) →
      ((benchLoop outcome runs i s).error = s.error
       ∧ (benchLoop outcome runs i s).results.length = s.results.length + runs.length
       ∧ (benchLoop outcome runs i s).progressTrace =
           s.progressTrace ++ (List.range runs.length).map
             (fun k => 100 * (s.results.length + k + 1) / totalBenchmarks)) := by
  intro runs
  induction runs with
  | nil => intro i s _; simp [benchLoop]
  | cons run rest ih =>
    intro i s h
    obtain ⟨opName, ops, sz⟩ := run
    have h0 : (outcome i).isOk := by simpa using h 0 (by simp)
    rcases houtcome : outcome i with m | t
    · rw [houtcome] at h0; simp [Except.isOk, Except.toBool] at h0
    · simp only [benchLoop, houtcome]
      have hrest : ∀ k, k < rest.length → (outcome (i + 1 + k)).isOk := by
        intro k hk
        have := h (k + 1) (by simpa using Nat.succ_lt_succ hk)
        have harith : i + (k + 1) = i + 1 + k := by omega
        rwa [harith] at this
      obtain ⟨he, hl, ht⟩ := ih (i + 1) _ hrest
      refine ⟨he, ?_, ?_⟩
      · rw [hl]
        simp only [List.length_append, List.length_cons, List.length_nil,
          List.length_singleton]
        omega
      · rw [ht]
        dsimp only
        simp only [List.length_append, List.length_singleton, List.length_cons]
        rw [List.append_assoc, List.singleton_append]
        congr 1
        rw [List.range_succ_eq_map, List.map_cons, List.map_map]
        congr 1
        apply List.map_congr_left
        intro a _
        simp only [Function.comp_apply, Nat.succ_eq_add_one, List.length_nil]
        congr 1
        omega

lemma benchLoop_err (outcome : Nat → Except String Nat) :
    ∀ (runs : List (String × List ApiClient.PipelineOperation × Nat)) (i : Nat)
      (s : LoopState) (k : Nat) (m : String),
      k < runs.length →
      (∀ j, j < k → (outcome (i + j)).isOk) →
      outcome (i + k) = .error m →
      (benchLoop outcome runs i s).error =
        some ("Benchmark failed: " ++ jsErrMsg m) := by
  intro runs
  induction runs with
  | nil => intro i s k m hk _ _; simp at hk
  | cons run rest ih =>
    intro i s k m hk hprev herr
    obtain ⟨opName, ops, sz⟩ := run
    cases k with
    | zero =>
      have herr0 : outcome i = .error m := by simpa using herr
      simp [benchLoop, herr0]
    | succ k' =>
      have h0 : (outcome i).isOk := by simpa using hprev 0 (Nat.succ_pos k')
      rcases houtcome : outcome i with m' | t
      · rw [houtcome] at h0; simp [Except.isOk, Except.toBool] at h0
      · simp only [benchLoop, houtcome]
        apply ih (i + 1) _ k' m (by simpa using Nat.lt_of_succ_lt_succ hk)
        · intro j hj
          have := hprev (j + 1) (Nat.succ_lt_succ hj)
          have harith : i + (j + 1) = i + 1 + j := by omega
          rwa [harith] at this
        · have harith : i + (k' + 1) = i + 1 + k' := by omega
          rwa [harith] at herr

lemma benchLoop_mono (outcome : Nat → Except String Nat) :
    ∀ (runs : List (String × List ApiClient.PipelineOperation × Nat)) (i : Nat)
      (s : LoopState),
      List.Chain' (· ≤ ·) s.progressTrace →
      (∀ x ∈ s.progressTrace, x ≤ 100 * s.results.length / totalBenchmarks) →
      (List.Chain' (· ≤ ·) (benchLoop outcome runs i s).progressTrace
       ∧ (∀ x ∈ (benchLoop outcome runs i s).progressTrace,
            x ≤ 100 * (benchLoop outcome runs i s).results.length / totalBenchmarks)
       ∧ (benchLoop outcome runs i s).results.length ≤ s.results.length + runs.length) := by
  intro runs
  induction runs with
  | nil =>
    intro i s hchain hbound
    exact ⟨hchain, hbound, by simp [benchLoop]⟩
  | cons run rest ih =>
    intro i s hchain hbound
    obtain ⟨opName, ops, sz⟩ := run
    rcases houtcome : outcome i with m | t
    · simp only [benchLoop, houtcome]
      exact ⟨hchain, hbound, by simp⟩
    · simp only [benchLoop, houtcome]
      have hlen : (s.results ++ [({ operation := opName, dataSize := sz, executionTime := t } : BenchmarkResult)]).length = s.results.length + 1 := by
        simp
      have hval : ∀ x ∈ s.progressTrace,
          x ≤ 100 * (s.results.length + 1) / totalBenchmarks := by
        intro x hx
        exact le_trans (hbound x hx) (Nat.div_le_div_right (by omega))
      have hchain' : List.Chain' (· ≤ ·)
          (s.progressTrace ++ [100 * (s.results.length + 1) / totalBenchmarks]) := by
        rw [List.chain'_append]
        refine ⟨hchain, List.chain'_singleton _, ?_⟩
        intro x hx y hy
        simp only [List.head?_cons, Option.mem_def, Option.some.injEq] at hy
        subst hy
        exact hval x (List.mem_of_mem_getLast? hx)
      have hbound' : ∀ x ∈ s.progressTrace ++
            [100 * (s.results.length + 1) / totalBenchmarks],
          x ≤ 100 * (s.results.length + 1) / totalBenchmarks := by
        intro x hx
        rcases List.mem_append.mp hx with hx | hx
        · exact hval x hx
        · simp only [List.mem_singleton] at hx
          omega
      obtain ⟨hc, hb, hl⟩ := ih (i + 1)
        { results := s.results ++ [({ operation := opName, dataSize := sz, executionTime := t } : BenchmarkResult)]
          progressTrace := s.progressTrace ++ [100 * (s.results ++ [({ operation := opName, dataSize := sz, executionTime := t } : BenchmarkResult)]).length / totalBenchmarks]
          events := s.events ++ [.request opName sz, .response opName sz]
          error := s.error }
        (by simpa [hlen] using hchain') (by simpa [hlen] using hbound')
      refine ⟨hc, hb, le_trans hl ?_⟩
      rw [hlen]
      simp only [List.length_cons]
      omega

lemma counts_take_append_pair (l : List BenchEvent) (r p : BenchEvent)
    (hr : isReqEvent r = true) (hr' : isRespEvent r = false)
    (hp : isReqEvent p = false) (hp' : isRespEvent p = true)
    (hc : l.countP isReqEvent = l.countP isRespEvent)
    (htake : ∀ n, (((l.take n).countP isReqEvent ≤ (l.take n).countP isRespEvent + 1)
        ∧ ((l.take n).countP isRespEvent ≤ (l.take n).countP isReqEvent))) :
    ((l ++ [r, p]).countP isReqEvent = (l ++ [r, p]).countP isRespEvent)
    ∧ (∀ n, ((((l ++ [r, p]).take n).countP isReqEvent ≤
          ((l ++ [r, p]).take n).countP isRespEvent + 1)
        ∧ (((l ++ [r, p]).take n).countP isRespEvent ≤
            ((l ++ [r, p]).take n).countP isReqEvent))) := by
  constructor
  · simp [List.countP_append, List.countP_cons, hc, hr, hr', hp, hp']
  · intro n
    rw [List.take_append_eq_append_take, List.countP_append, List.countP_append]
    rcases hn : n - l.length with _ | n'
    · simp only [List.take_zero, List.countP_nil, Nat.add_zero]
      exact htake n
    · have hlen : l.length ≤ n := by omega
      rw [List.take_of_length_le hlen]
      cases n' with
      | zero =>
        simp [List.take_succ_cons, List.take_zero, List.countP_cons,
          List.countP_nil, hr, hr', hp, hp']
        omega
      | succ n'' =>
        have h2 : [r, p].take (n'' + 1 + 1) = [r, p] := by
          apply List.take_of_length_le
          simp
        rw [h2]
        simp [List.countP_cons, List.countP_nil, hr, hr', hp, hp']
        omega

lemma benchLoop_events (outcome : Nat → Except String Nat) :
    ∀ (runs : List (String × List ApiClient.PipelineOperation × Nat)) (i : Nat)
      (s : LoopState),
      (s.events.countP isReqEvent = s.events.countP isRespEvent) →
      (∀ n, (((s.events.take n).countP isReqEvent ≤
            (s.events.take n).countP isRespEvent + 1)
          ∧ ((s.events.take n).countP isRespEvent ≤
              (s.events.take n).countP isReqEvent))) →
      (((benchLoop outcome runs i s).events.countP isReqEvent =
          (benchLoop outcome runs i s).events.countP isRespEvent)
       ∧ (∀ n, ((((benchLoop outcome runs i s).events.take n).countP isReqEvent ≤
            ((benchLoop outcome runs i s).events.take n).countP isRespEvent + 1)
          ∧ (((benchLoop outcome runs i s).events.take n).countP isRespEvent ≤
              ((benchLoop outcome runs i s).events.take n).countP isReqEvent)))) := by
  intro runs
  induction runs with
  | nil => intro i s hc ht; exact ⟨hc, ht⟩
  | cons run rest ih =>
    intro i s hc ht
    obtain ⟨opName, ops, sz⟩ := run
    have hpair := counts_take_append_pair s.events (.request opName sz)
      (.response opName sz) rfl rfl rfl rfl hc ht
    rcases houtcome : outcome i with m | t
    · simp only [benchLoop, houtcome]
      exact hpair
    · simp only [benchLoop, houtcome]
      exact ih (i + 1) _ hpair.1 hpair.2

/-- C4: the benchmark run visits exactly 20 (operation, size) pairs; on
an all-successful run the published progress sequence is
`floor(100·k/20)` for `k = 1..20` followed by the final 100; the
progress value never decreases, whatever the outcomes; and at every
prefix of the event trace at most one request is outstanding — each
request is answered before the next is issued. -/
theorem runBenchmarks_sequential_progress (outcome : Nat → Except String Nat) :
    totalBenchmarks = 20
    ∧ benchmarkRuns.length = 20
    ∧ ((∀ i, i < 20 → (outcome i).isOk) →
        (runBenchmarks outcome).progressTrace =
          (List.range 20).map (fun k => 100 * (k + 1) / 20) ++ [100])
    ∧ List.Chain' (· ≤ ·) (runBenchmarks outcome).progressTrace
    ∧ (∀ n : Nat,
        ((((runBenchmarks outcome).events.take n).countP isReqEvent ≤
          ((runBenchmarks outcome).events.take n).countP isRespEvent + 1)
        ∧ (((runBenchmarks outcome).events.take n).countP isRespEvent ≤
            ((runBenchmarks outcome).events.take n).countP isReqEvent))) := by
  refine ⟨rfl, rfl, ?_, ?_, ?_⟩
  · intro hok
    obtain ⟨_, _, ht⟩ := benchLoop_ok outcome benchmarkRuns 0 ⟨[], [], [], none⟩
      (fun k hk => by rw [Nat.zero_add]; exact hok k hk)
    simp only [runBenchmarks]
    rw [ht]
    simp only [List.length_nil, List.nil_append, Nat.zero_add]
    rfl
  · obtain ⟨hc, hb, _⟩ := benchLoop_mono outcome benchmarkRuns 0 ⟨[], [], [], none⟩
      (List.chain'_nil) (by intro x hx; simp at hx)
    have hlen := (benchLoop_mono outcome benchmarkRuns 0 ⟨[], [], [], none⟩
      (List.chain'_nil) (by intro x hx; simp at hx)).2.2
    simp only [runBenchmarks]
    rw [List.chain'_append]
    refine ⟨hc, List.chain'_singleton _, ?_⟩
    intro x hx y hy
    simp only [List.head?_cons, Option.mem_def, Option.some.injEq] at hy
    subst hy
    have hx' := hb x (List.mem_of_mem_getLast? hx)
    have hle : (benchLoop outcome benchmarkRuns 0 ⟨[], [], [], none⟩).results.length ≤ 20 := by
      simpa using hlen
    calc x ≤ 100 * (benchLoop outcome benchmarkRuns 0
            ⟨[], [], [], none⟩).results.length / totalBenchmarks := hx'
      _ ≤ 100 * 20 / totalBenchmarks := Nat.div_le_div_right (by omega)
      _ = 100 := rfl
  · obtain ⟨_, ht⟩ := benchLoop_events outcome benchmarkRuns 0 ⟨[], [], [], none⟩
      rfl (by intro n; simp)
    simpa only [runBenchmarks] using ht

/-- C4 (witness): the theorem's success-path conjunct at the all-ok
outcome. -/
theorem runBenchmarks_sequential_progress_witness :
    (runBenchmarks (fun _ => Except.ok 1)).progressTrace =
      (List.range 20).map (fun k => 100 * (k + 1) / 20) ++ [100] :=
  (runBenchmarks_sequential_progress (fun _ => Except.ok 1)).2.2.1
    (fun _ _ => rfl)

/-- C9: the `finally` block clears the running flag and forces progress
to 100 on every path; an all-successful run publishes all 20 results
with no error; and if the run's first failure is at position `k`, no
partial results are published (the displayed list is empty) and the
error message is built from the failure. -/
theorem runBenchmarks_error_handling (outcome : Nat → Except String Nat) :
    ((runBenchmarks outcome).isRunning = false ∧ (runBenchmarks outcome).progress = 100)
    ∧ ((∀ i, i < 20 → (outcome i).isOk) →
        (runBenchmarks outcome).error = none ∧
        (runBenchmarks outcome).benchmarkResults.length = 20)
    ∧ (∀ k m, k < 20 → (∀ j, j < k → (outcome j).isOk) → outcome k = .error m →
        (runBenchmarks outcome).benchmarkResults = [] ∧
        (runBenchmarks outcome).error = some ("Benchmark failed: " ++ jsErrMsg m)) := by
  refine ⟨⟨rfl, rfl⟩, ?_, ?_⟩
  · intro hok
    obtain ⟨he, hl, _⟩ := benchLoop_ok outcome benchmarkRuns 0 ⟨[], [], [], none⟩
      (fun k hk => by rw [Nat.zero_add]; exact hok k hk)
    constructor
    · simpa only [runBenchmarks] using he
    · simp only [runBenchmarks, he]
      simpa using hl
  · intro k m hk hprev herr
    have he := benchLoop_err outcome benchmarkRuns 0 ⟨[], [], [], none⟩ k m
      hk (fun j hj => by rw [Nat.zero_add]; exact hprev j hj)
      (by rw [Nat.zero_add]; exact herr)
    constructor
    · simp only [runBenchmarks, he]
    · simpa only [runBenchmarks] using he

/-- C9 (witness): the theorem applied at an immediately failing outcome
and at an all-successful one. -/
theorem runBenchmarks_error_handling_witness :
    ((runBenchmarks (fun _ => Except.error "boom")).benchmarkResults = []
     ∧ (runBenchmarks (fun _ => Except.error "boom")).error =
         some ("Benchmark failed: " ++ jsErrMsg "boom"))
    ∧ (runBenchmarks (fun _ => Except.ok 2)).error = none :=
  ⟨(runBenchmarks_error_handling (fun _ => Except.error "boom")).2.2 0 "boom"
      (by omega) (fun j hj => absurd hj (Nat.not_lt_zero j)) rfl,
   ((runBenchmarks_error_handling (fun _ => Except.ok 2)).2.1 (fun _ _ => rfl)).1⟩

end Perf

namespace Deploy

/-- C7 (code bug): both scripts resolve the default registry and tag,
and `deploy.sh` (its Helm tail spec-modelled) behaves as the claim says
— full build/push/deploy sequence with exit 0 on success, stopping at
the first failing step with exit 1 otherwise.  `deploy.ps1`, however,
exits 1 on EVERY run: its dangling `finally { Pop-Location }` (no
matching `Push-Location`) raises a terminating error after the API
stage, so even with every command succeeding it performs only the API
build and push, never reaches the UI build or the Helm deploy, and
aborts at a step that did not fail. -/
theorem deploy_scripts_behavior (bA pA bU pU rel hOk : Bool) :
    ((deployPs1 [] ⟨bA, pA, bU, pU, rel, hOk⟩).registry = "registry.quantum-forge.net"
     ∧ (deployPs1 [] ⟨bA, pA, bU, pU, rel, hOk⟩).tag = "latest"
     ∧ (deployPs1 [] ⟨bA, pA, bU, pU, rel, hOk⟩).skipPush = false
     ∧ (deploySh [] ⟨bA, pA, bU, pU, rel, hOk⟩).registry = "registry.quantum-forge.net"
     ∧ (deploySh [] ⟨bA, pA, bU, pU, rel, hOk⟩).tag = "latest")
    ∧ ((deployPs1 [] ⟨bA, pA, bU, pU, rel, hOk⟩).exitCode = 1
       ∧ DAction.buildUi ∉ (deployPs1 [] ⟨bA, pA, bU, pU, rel, hOk⟩).actions
       ∧ DAction.helmStatus "metrics-release" ∉
           (deployPs1 [] ⟨bA, pA, bU, pU, rel, hOk⟩).actions
       ∧ ((bA ∧ pA) → (deployPs1 [] ⟨bA, pA, bU, pU, rel, hOk⟩).actions =
           [DAction.buildApi, DAction.pushApi]))
    ∧ ((bA ∧ pA ∧ bU ∧ pU ∧ hOk) →
        ((deploySh [] ⟨bA, pA, bU, pU, rel, hOk⟩).exitCode = 0
         ∧ (deploySh [] ⟨bA, pA, bU, pU, rel, hOk⟩).actions = fullActions rel))
    ∧ (¬(bA ∧ pA ∧ bU ∧ pU ∧ hOk) →
        ((deploySh [] ⟨bA, pA, bU, pU, rel, hOk⟩).exitCode = 1
         ∧ (deploySh [] ⟨bA, pA, bU, pU, rel, hOk⟩).actions =
             (fullActions rel).take ((deploySh [] ⟨bA, pA, bU, pU, rel, hOk⟩).actions.length)
         ∧ (deploySh [] ⟨bA, pA, bU, pU, rel, hOk⟩).actions.length <
             (fullActions rel).length)) := by
  cases bA <;> cases pA <;> cases bU <;> cases pU <;> cases rel <;> cases hOk <;> decide

/-- C7 (witness): the theorem at an all-successful environment — the
PowerShell run still exits 1 after build+push of the API image, while
the POSIX run completes — and at one with a failing step. -/
theorem deploy_scripts_behavior_witness :
    ((deployPs1 [] ⟨true, true, true, true, false, true⟩).exitCode = 1
     ∧ (deployPs1 [] ⟨true, true, true, true, false, true⟩).actions =
         [DAction.buildApi, DAction.pushApi])
    ∧ ((deploySh [] ⟨true, true, true, true, false, true⟩).exitCode = 0
       ∧ (deploySh [] ⟨true, true, true, true, false, true⟩).actions = fullActions false)
    ∧ (deploySh [] ⟨false, true, true, true, false, true⟩).exitCode = 1 :=
  ⟨⟨(deploy_scripts_behavior true true true true false true).2.1.1,
    (deploy_scripts_behavior true true true true false true).2.1.2.2.2 ⟨rfl, rfl⟩⟩,
   (deploy_scripts_behavior true true true true false true).2.2.1 ⟨rfl, rfl, rfl, rfl, rfl⟩,
   ((deploy_scripts_behavior false true true true false true).2.2.2 (by simp)).1⟩

/-- C8 (counterexample): it is the Windows-shell script whose behaviour
changes when the third positional argument is `"true"` (the API push is
suppressed before the Pop-Location abort), while the POSIX script is
insensitive to any third argument — the opposite of the claim. -/
theorem deploy_skipPush_posix_only_refuted :
    ((deployPs1 ["r", "t", "true"] ⟨true, true, true, true, true, true⟩).actions ≠
      (deployPs1 ["r", "t"] ⟨true, true, true, true, true, true⟩).actions)
    ∧ deploySh ["r", "t", "true"] ⟨true, true, true, true, true, true⟩ =
        deploySh ["r", "t"] ⟨true, true, true, true, true, true⟩ := by
  decide

/-- C8 (amended): only the Windows-shell variant accepts the additional
positional `skipPush` flag (default false), which suppresses the image
push (observably: with the flag the run performs no push action before
aborting, without it the API push happens); the POSIX-shell variant
reads only the registry and tag arguments and ignores any third
argument entirely. -/
theorem deploy_skipPush_windows_only :
    (∀ (r t c : String) (bA pA bU pU rel hOk : Bool),
        deploySh [r, t, c] ⟨bA, pA, bU, pU, rel, hOk⟩ =
          deploySh [r, t] ⟨bA, pA, bU, pU, rel, hOk⟩)
    ∧ (∀ (r t : String) (bA pA bU pU rel hOk : Bool),
        (deployPs1 [r, t, "true"] ⟨bA, pA, bU, pU, rel, hOk⟩).skipPush = true
        ∧ (deployPs1 [r, t] ⟨bA, pA, bU, pU, rel, hOk⟩).skipPush = false)
    ∧ (∀ (pA bU pU rel hOk : Bool),
        (deployPs1 ["registry.example", "v1", "true"]
            ⟨true, pA, bU, pU, rel, hOk⟩).actions = [DAction.buildApi]
        ∧ (deployPs1 ["registry.example", "v1"]
            ⟨true, true, bU, pU, rel, hOk⟩).actions =
            [DAction.buildApi, DAction.pushApi]) := by
  refine ⟨fun r t c bA pA bU pU rel hOk => rfl, ?_, ?_⟩
  · intro r t bA pA bU pU rel hOk
    cases bA <;> cases pA <;> exact ⟨rfl, rfl⟩
  · intro pA bU pU rel hOk
    exact ⟨rfl, rfl⟩

end Deploy
